import Mathlib

/-!
Shallow embedding of the traffic-emission core of the drive-inventory
repository (DDRIVE): level-of-service classification from volume-capacity
ratios, passenger-car-unit conversion, emission-factor lookup with gradient
fallback, per-day activity/emission computation, and the dispatcher's
result/error drain loops from the notebooks.

Numbers are modelled as exact rationals; Python dicts are association
lists; a raised exception is the error case of an Option or an explicit
outcome constructor.
-/

/-- Association-list lookup: the first pair whose key matches, as a Python
dict read would return the stored value or raise KeyError (here: none). -/
def alookup {α β : Type} [DecidableEq α] (k : α) : List (α × β) → Option β
  | [] => none
  | (a, b) :: rest => if a = k then some b else alookup k rest

/-- The five ordered traffic-condition bands (Level of Service). The source
notebooks name them Freeflow, Heavy, Satur., St+Go, St+Go2. -/
inductive LOS : Type
  | Freeflow
  | Heavy
  | Saturated
  | StopAndGo
  | StopAndGo2
deriving DecidableEq, Repr

/-- Position of a band in the order Freeflow < Heavy < Saturated <
StopAndGo < StopAndGo2. -/
def losIndex : LOS → Nat
  | .Freeflow => 0
  | .Heavy => 1
  | .Saturated => 2
  | .StopAndGo => 3
  | .StopAndGo2 => 4

/-- The band-name strings used by the source notebooks for the five
conditions (keys of the final_result accumulators). -/
def losName : LOS → String
  | .Freeflow => "Freeflow"
  | .Heavy => "Heavy"
  | .Saturated => "Satur."
  | .StopAndGo => "St+Go"
  | .StopAndGo2 => "St+Go2"

/-- Modelled from the spec: the band-selection chain of
HbefaHotEmissions.calc_los_class (utils/hbefa_hot_emissions.py is not in
src; only its threshold configuration and call sites are). Given the 4
breakpoints (t1,t2,t3,t4) of a road type and a volume-capacity ratio v:
v < t1 gives Freeflow, t1 <= v < t2 Heavy, t2 <= v < t3 Saturated,
t3 <= v < t4 StopAndGo, and v >= t4 StopAndGo2. -/
def classifyVCR (t : ℚ × ℚ × ℚ × ℚ) (v : ℚ) : LOS :=
  match t with
  | (t1, t2, t3, t4) =>
    if v < t1 then .Freeflow
    else if v < t2 then .Heavy
    else if v < t3 then .Saturated
    else if v < t4 then .StopAndGo
    else .StopAndGo2

/-- The VCR threshold configuration of notebook 01_optimize_VCR_thresholds:
per road type, the 4 breakpoints of the five service bands. -/
def vcr_thresholds : List (String × (ℚ × ℚ × ℚ × ℚ)) :=
  [ ("Motorway-Nat", (1/2, 71/100, 98/100, 11/10)),
    ("Motorway-City", (55/100, 71/100, 98/100, 11/10)),
    ("TrunkRoad/Primary-National", (33/100, 1/2, 7/10, 8/10)),
    ("TrunkRoad/Primary-City", (67/100, 82/100, 92/100, 102/100)),
    ("Distributor/Secondary", (37/100, 1/2, 63/100, 8/10)),
    ("Local/Collector", (55/100, 75/100, 9/10, 1)),
    ("Access-residential", (14/100, 1/4, 39/100, 52/100)) ]

/-- Modelled from the spec: calc_los_class of utils/hbefa_hot_emissions.py
(module absent from src). Looks up the road type in the configured
threshold table (an unknown road type is an error, none), computes the
volume-capacity ratio from the passenger-car-unit volume and the hourly
capacity, and selects the band. The hbefa_speed argument is part of the
source signature but does not influence band selection. -/
def calc_los_class (thresholds : List (String × (ℚ × ℚ × ℚ × ℚ)))
    (road_type : String) (_hbefa_speed : String)
    (hour_capacity : ℚ) (htv_car_unit : ℚ) : Option LOS :=
  (alookup road_type thresholds).map
    (fun t => classifyVCR t (htv_car_unit / hour_capacity))

/-- Key of the emission-factor table: (year, traffic situation, vehicle
class, gradient class, component), as indexed by the source notebooks. -/
structure EFKey : Type where
  year : Nat
  traSit : String
  vehicleClass : String
  gradient : String
  component : String
deriving DecidableEq, Repr

/-- The emission-factor lookup of calculate_emissions in notebook
31_calculate_detector_emissons: try the exact key; on KeyError retry with
the flat gradient key "0%" holding all other components fixed; a miss
there propagates as an error (none), never as a zero value. -/
def efLookup (table : List (EFKey × ℚ)) (year : Nat)
    (traSit vehicleClass gradient component : String) : Option ℚ :=
  match alookup ⟨year, traSit, vehicleClass, gradient, component⟩ table with
  | some ef => some ef
  | none => alookup ⟨year, traSit, vehicleClass, "0%", component⟩ table

/-- calculate_emissions of notebook 31_calculate_detector_emissons: the
looked-up factor times the vehicle volume; an unresolved lookup
propagates. -/
def calculate_emissions (table : List (EFKey × ℚ)) (year : Nat)
    (vehicle_class : String) (vehicle_volume : ℚ)
    (TraSit hbefa_gradient component : String) : Option ℚ :=
  (efLookup table year TraSit vehicle_class hbefa_gradient component).map
    (fun ef => vehicle_volume * ef)

/-- The SUM_PCU computation of notebook 31: volumes.mul(weights).sum(axis=1)
in pandas aligns the vehicle-class columns with the weight series and the
row sum skips the NaN entries, so a class with no configured weight
contributes nothing, and a class is counted exactly when it carries a
weight. -/
def sumPCU (volumes weights : List (String × ℚ)) : ℚ :=
  volumes.foldr
    (fun p acc =>
      match alookup p.1 weights with
      | some w => p.2 * w + acc
      | none => acc) 0

/-- A per-date result as drained from the result queue in notebook
12_calculate_hot_emissions: a dict from road index to a dict from
component key to an accumulated value. -/
abbrev DailyResult : Type := List (Nat × List (String × ℚ))

/-- Two-level dict read result[road_index][component]. -/
def lookup2 (r : DailyResult) (ri : Nat) (c : String) : Option ℚ :=
  (alookup ri r).bind (fun ems => alookup c ems)

/-- All (road index, component) key pairs listed by a result, in iteration
order (including any shadowed duplicates of the association list). -/
def keyPairs (r : DailyResult) : List (Nat × String) :=
  r.flatMap (fun p => p.2.map (fun q => (p.1, q.1)))

/-- Inner loop of the drain step in notebook 12: for each component of one
road entry of the running result, read new_result[road_index][component]
(KeyError propagates as none) and add it in place. -/
def addEmList (new : DailyResult) (ri : Nat) :
    List (String × ℚ) → Option (List (String × ℚ))
  | [] => some []
  | (c, v) :: rest =>
    match lookup2 new ri c with
    | none => none
    | some w => (addEmList new ri rest).map (fun t => (c, v + w) :: t)

/-- Outer loop of the drain step in notebook 12: for each road entry of the
running result, add the matching entries of the newly dequeued result. -/
def addResult (acc new : DailyResult) : Option DailyResult :=
  match acc with
  | [] => some []
  | (ri, ems) :: rest =>
    match addEmList new ri ems with
    | none => none
    | some ems2 => (addResult rest new).map (fun t => (ri, ems2) :: t)

/-- Outcome of the drain loop of notebook 12: the first dequeue blocks
forever when no task ever enqueued a result; a missing key in a later
result raises KeyError; otherwise the accumulated aggregate is produced. -/
inductive DrainOutcome : Type
  | blocked
  | keyError
  | ok (agg : DailyResult)
deriving DecidableEq, Repr

/-- The while-loop of the drain: fold the remaining queue contents into the
running result. -/
def drainLoop (acc : DailyResult) : List DailyResult → Option DailyResult
  | [] => some acc
  | new :: rest =>
    match addResult acc new with
    | none => none
    | some acc2 => drainLoop acc2 rest

/-- The result-queue drain of notebook 12_calculate_hot_emissions:
result = result_queue.get() (blocks forever on an empty queue), then while
the queue is non-empty, dequeue new_result and add, for every
(road index, component) of the running result, the matching value of
new_result. The argument list is the queue in arrival order. -/
def drainResults : List DailyResult → DrainOutcome
  | [] => .blocked
  | first :: rest =>
    match drainLoop first rest with
    | none => .keyError
    | some agg => .ok agg

/-- Pure form of one successful drain step: every stored entry gains the
value the new result holds under the first occurrence of its key (0 for a
shadowed entry whose key the new result lacks at that road's dict). -/
def pureAdd (acc new : DailyResult) : DailyResult :=
  acc.map (fun p =>
    (p.1, p.2.map (fun q => (q.1, q.2 + (lookup2 new p.1 q.1).getD 0))))

/-- The error-queue drain of notebook 12: dequeue every queued error and
append it to the error list, in order. -/
def drainErrors (queue : List α) : List α :=
  queue.foldl (fun acc e => acc ++ [e]) []

/-- Embeds the accumulator seed np.array(5, float) of notebooks 01 and 02:
a 0-dimensional numpy array holding the scalar 5.0, which broadcasts that
scalar into every vehicle-class slot when added to a length-5 vector. -/
def npArraySeed : Fin 5 → ℚ := fun _ => 5

/-- The per-traffic-condition VKT accumulation loop of notebooks
01_optimize_VCR_thresholds and 02_calculate_total_VKT: final_result starts
every condition at np.array(5, float) and each date's calculate_VKT values
(one length-5 vector per condition, indexed by vehicle class) are added
in. -/
def vktAccumulate (dailies : List (LOS → Fin 5 → ℚ)) : LOS → Fin 5 → ℚ :=
  dailies.foldl (fun acc cl => fun k i => acc k i + cl k i)
    (fun _ => npArraySeed)

/-- An error record of the per-date task: the wrapped context (date, road
link id, hour) together with the message of the caught exception. -/
structure TaskError : Type where
  date : String
  roadId : Nat
  hour : Nat
  msg : String
deriving DecidableEq, Repr

/-- Modelled from the spec: the per-road-link hour loop of
process_daily_emissions in utils/hot_emission_process.py (module absent
from src). The per-record computation f may fail; a failure is caught,
wrapped with (date, road link id, hour) and appended to the error list,
and the loop continues with the remaining hours; successes accumulate. -/
def runHours (f : Nat → Nat → Except String ℚ) (date : String)
    (link : Nat) : List Nat → ℚ × List TaskError
  | [] => (0, [])
  | h :: hs =>
    let t := runHours f date link hs
    match f link h with
    | .ok x => (x + t.1, t.2)
    | .error e => (t.1, ⟨date, link, h, e⟩ :: t.2)

/-- Modelled from the spec: process_daily_emissions of
utils/hot_emission_process.py (module absent from src). For every road
link, run all 24 hours; per-record failures land in the task's error list
with their context and never abort the date; the partial result and the
full error list are both returned. -/
def process_daily_emissions (f : Nat → Nat → Except String ℚ)
    (date : String) : List Nat → List (Nat × ℚ) × List TaskError
  | [] => ([], [])
  | l :: ls =>
    let t := runHours f date l (List.range 24)
    let rest := process_daily_emissions f date ls
    ((l, t.1) :: rest.1, t.2 ++ rest.2)

/-- The value a record contributes to the aggregate: its result when it
succeeded, nothing (0) when it failed and was recorded as an error. -/
def successValue (r : Except String ℚ) : ℚ :=
  match r with
  | .ok v => v
  | .error _ => 0

/-- The wrapped error a record contributes, if any. -/
def errorRecord (f : Nat → Nat → Except String ℚ) (date : String)
    (link hour : Nat) : Option TaskError :=
  match f link hour with
  | .ok _ => none
  | .error e => some ⟨date, link, hour, e⟩

/-- Source formula of the modelled traffic volume (notebook on traffic
volume uncertainty, src/unnamed/part_000): traffic_volume = dtv *
timeprofile, the daily volume scaled by the temporal-profile fraction. -/
def modeled_volume (dtv frac : ℚ) : ℚ := dtv * frac

/-- Modelled from the spec: the hourly per-class volumes of the activity
calculation — each class's daily volume scaled by its temporal-profile
fraction for the hour, following the source formula modeled_volume. -/
def hourlyVolumes (daily fracs : List (String × ℚ)) : List (String × ℚ) :=
  daily.map (fun p => (p.1, modeled_volume p.2 ((alookup p.1 fracs).getD 0)))

/-- Modelled from the spec: the per-link, per-hour activity and emission
computation of utils/hbefa_hot_emissions.py (module absent from src).
Hourly volumes scale each class's daily volume by its temporal-profile
fraction (a missing fraction contributes 0 volume); the combined
passenger-car-unit volume feeds the level-of-service classification; the
emission for the requested vehicle class is its hourly volume times the
looked-up factor times the road length in kilometers. Any failed lookup
propagates. -/
def calcLinkHour (efTable : List (EFKey × ℚ))
    (thresholds : List (String × (ℚ × ℚ × ℚ × ℚ)))
    (weights : List (String × ℚ)) (year : Nat)
    (road_type hbefa_speed gradient component : String)
    (hour_capacity lengthM : ℚ)
    (daily fracs : List (String × ℚ)) (vc : String) : Option ℚ :=
  (calc_los_class thresholds road_type hbefa_speed hour_capacity
      (sumPCU (hourlyVolumes daily fracs) weights)).bind
    (fun los =>
      (efLookup efTable year (losName los) vc gradient component).bind
        (fun ef =>
          (alookup vc (hourlyVolumes daily fracs)).map
            (fun hv => hv * ef * (lengthM / 1000))))

lemma alookup_map_val {α β γ : Type} [DecidableEq α] (g : α → β → γ)
    (k : α) (l : List (α × β)) :
    alookup k (l.map (fun p => (p.1, g p.1 p.2))) = (alookup k l).map (g k) := by
  induction l with
  | nil => rfl
  | cons p rest ih =>
    by_cases h : p.1 = k
    · subst h; simp [alookup]
    · simp [alookup, h, ih]

lemma alookup_isSome_iff {α β : Type} [DecidableEq α] (k : α)
    (l : List (α × β)) :
    (alookup k l).isSome ↔ k ∈ l.map Prod.fst := by
  induction l with
  | nil => simp [alookup]
  | cons p rest ih =>
    by_cases h : p.1 = k
    · subst h; simp [alookup]
    · simp [alookup, h, ih, Ne.symm h]

lemma alookup_of_mem_nodup {α β : Type} [DecidableEq α] {l : List (α × β)}
    {a : α} {b : β} (hnd : (l.map Prod.fst).Nodup) (hm : (a, b) ∈ l) :
    alookup a l = some b := by
  induction l with
  | nil => simp at hm
  | cons p rest ih =>
    simp only [List.map_cons, List.nodup_cons] at hnd
    rcases List.mem_cons.mp hm with h | h
    · subst h; simp [alookup]
    · have hne : p.1 ≠ a := by
        intro he
        exact hnd.1 (he ▸ (List.mem_map.mpr ⟨(a, b), h, rfl⟩))
      simp [alookup, hne, ih hnd.2 h]

lemma alookup_mem_of_eq_some {α β : Type} [DecidableEq α] {l : List (α × β)}
    {a : α} {b : β} (h : alookup a l = some b) : (a, b) ∈ l := by
  induction l with
  | nil => simp [alookup] at h
  | cons p rest ih =>
    by_cases hp : p.1 = a
    · simp [alookup, hp] at h
      have : p = (a, b) := Prod.ext hp h
      exact this ▸ List.mem_cons_self p rest
    · simp [alookup, hp] at h
      exact List.mem_cons_of_mem _ (ih h)

/-- Concrete emission-factor table holding only a flat-gradient entry, used
to exercise the fallback. -/
def flatOnlyTable : List (EFKey × ℚ) :=
  [(⟨2019, "Freeflow", "PC", "0%", "CO2"⟩, 12/100)]

/-- C1: if the exact gradient key is absent from the emission-factor table,
the lookup retries with the flat-gradient key "0%" holding all other key
components fixed and returns that value when present; if the key is absent
under both gradients, the lookup errors (none) and never returns zero. -/
theorem C1_ef_gradient_fallback (table : List (EFKey × ℚ)) (year : Nat)
    (traSit vc gradient component : String)
    (hmiss : alookup ⟨year, traSit, vc, gradient, component⟩ table = none) :
    (∀ v, alookup ⟨year, traSit, vc, "0%", component⟩ table = some v →
      efLookup table year traSit vc gradient component = some v) ∧
    (alookup ⟨year, traSit, vc, "0%", component⟩ table = none →
      efLookup table year traSit vc gradient component = none) := by
  unfold efLookup
  rw [hmiss]
  exact ⟨fun v hv => hv, fun h => h⟩

/-- C1 witness: with a table holding only the flat-gradient entry, looking
up an absent gradient returns the flat-gradient value. -/
theorem C1_ef_gradient_fallback_witness :
    alookup (⟨2019, "Freeflow", "PC", "+2%", "CO2"⟩ : EFKey) flatOnlyTable
      = none ∧
    efLookup flatOnlyTable 2019 "Freeflow" "PC" "+2%" "CO2" = some (12/100) :=
  ⟨by simp [flatOnlyTable, alookup],
    (C1_ef_gradient_fallback flatOnlyTable 2019 "Freeflow" "PC" "+2%" "CO2"
      (by simp [flatOnlyTable, alookup])).1 (12/100)
      (by simp [flatOnlyTable, alookup])⟩

/-- C2: with an ordered 4-tuple of breakpoints (t1,t2,t3,t4),
classification returns Freeflow for VCR < t1, Heavy on [t1,t2), Saturated
on [t2,t3), StopAndGo on [t3,t4), StopAndGo2 for VCR >= t4; with
thresholds (0.3, 0.5, 0.7, 0.9) a VCR of 1.0 lands in StopAndGo2, the
boundary-inclusive top band. -/
theorem C2_band_selection (t1 t2 t3 t4 v : ℚ)
    (h12 : t1 < t2) (h23 : t2 < t3) (h34 : t3 < t4) :
    (v < t1 → classifyVCR (t1, t2, t3, t4) v = .Freeflow) ∧
    (t1 ≤ v → v < t2 → classifyVCR (t1, t2, t3, t4) v = .Heavy) ∧
    (t2 ≤ v → v < t3 → classifyVCR (t1, t2, t3, t4) v = .Saturated) ∧
    (t3 ≤ v → v < t4 → classifyVCR (t1, t2, t3, t4) v = .StopAndGo) ∧
    (t4 ≤ v → classifyVCR (t1, t2, t3, t4) v = .StopAndGo2) ∧
    classifyVCR (3/10, 1/2, 7/10, 9/10) 1 = .StopAndGo2 := by
  refine ⟨?_, ?_, ?_, ?_, ?_, ?_⟩
  · intro h
    simp only [classifyVCR]
    split_ifs <;> first | rfl | (exfalso; linarith)
  · intro h1 h2
    simp only [classifyVCR]
    split_ifs <;> first | rfl | (exfalso; linarith)
  · intro h1 h2
    simp only [classifyVCR]
    split_ifs <;> first | rfl | (exfalso; linarith)
  · intro h1 h2
    simp only [classifyVCR]
    split_ifs <;> first | rfl | (exfalso; linarith)
  · intro h
    simp only [classifyVCR]
    split_ifs <;> first | rfl | (exfalso; linarith)
  · simp only [classifyVCR]
    norm_num

/-- C2 witness: at thresholds (0.3, 0.5, 0.7, 0.9) — strictly increasing —
the ratio 1.0 satisfies t4 <= VCR and the classifier returns the top
band. -/
theorem C2_band_selection_witness :
    (9/10 : ℚ) ≤ 1 ∧ classifyVCR (3/10, 1/2, 7/10, 9/10) 1 = .StopAndGo2 :=
  ⟨by norm_num,
    (C2_band_selection (3/10) (1/2) (7/10) (9/10) 1 (by norm_num)
      (by norm_num) (by norm_num)).2.2.2.2.1 (by norm_num)⟩

/-- C8: for strictly increasing thresholds, classification is monotonic in
the volume-capacity ratio — a larger VCR never lands in an earlier band. -/
theorem C8_classification_monotone (t1 t2 t3 t4 v1 v2 : ℚ)
    (h12 : t1 < t2) (h23 : t2 < t3) (h34 : t3 < t4) (hv : v1 ≤ v2) :
    losIndex (classifyVCR (t1, t2, t3, t4) v1)
      ≤ losIndex (classifyVCR (t1, t2, t3, t4) v2) := by
  simp only [classifyVCR]
  split_ifs <;> simp only [losIndex] <;> first | omega | (exfalso; linarith)

/-- C8 witness: on the Distributor/Secondary thresholds of the source
configuration, a VCR of 0.4 is classified no later than a VCR of 0.75. -/
theorem C8_classification_monotone_witness :
    (4/10 : ℚ) ≤ 75/100 ∧
    losIndex (classifyVCR (37/100, 1/2, 63/100, 8/10) (4/10))
      ≤ losIndex (classifyVCR (37/100, 1/2, 63/100, 8/10) (75/100)) :=
  ⟨by norm_num,
    C8_classification_monotone (37/100) (1/2) (63/100) (8/10) (4/10)
      (75/100) (by norm_num) (by norm_num) (by norm_num) (by norm_num)⟩


lemma sumPCU_nil (weights : List (String × ℚ)) : sumPCU [] weights = 0 := rfl

lemma sumPCU_cons (p : String × ℚ) (ps weights : List (String × ℚ)) :
    sumPCU (p :: ps) weights =
      match alookup p.1 weights with
      | some w => p.2 * w + sumPCU ps weights
      | none => sumPCU ps weights := rfl

lemma sumPCU_cons_some {p : String × ℚ} {ps weights : List (String × ℚ)}
    {w : ℚ} (h : alookup p.1 weights = some w) :
    sumPCU (p :: ps) weights = p.2 * w + sumPCU ps weights := by
  rw [sumPCU_cons, h]

lemma sumPCU_cons_none {p : String × ℚ} {ps weights : List (String × ℚ)}
    (h : alookup p.1 weights = none) :
    sumPCU (p :: ps) weights = sumPCU ps weights := by
  rw [sumPCU_cons, h]

/-- A weight table knowing only the PC class, used to exercise the
treatment of an unknown vehicle class. -/
def pcOnlyWeights : List (String × ℚ) := [("PC", 1)]

/-- C6 counterexample: a vehicle class present in the volumes but absent
from the weight table is silently dropped from the PCU sum — the code
returns the partial sum instead of raising an UnknownVehicleClass
error. -/
theorem C6_unknown_class_counterexample :
    alookup "XX" pcOnlyWeights = none ∧
    sumPCU [("PC", 2), ("XX", 5)] pcOnlyWeights = 2 ∧
    sumPCU [("PC", 2), ("XX", 5)] pcOnlyWeights
      = sumPCU [("PC", 2)] pcOnlyWeights := by
  have hxx : alookup "XX" pcOnlyWeights = none := by
    simp [pcOnlyWeights, alookup]
  have hpc : alookup "PC" pcOnlyWeights = some 1 := by
    simp [pcOnlyWeights, alookup]
  refine ⟨hxx, ?_, ?_⟩
  · rw [sumPCU_cons_some hpc, sumPCU_cons_none hxx, sumPCU_nil]
    norm_num
  · rw [sumPCU_cons_some hpc, sumPCU_cons_none hxx,
      sumPCU_cons_some hpc]

/-- C6 amended: the combined PCU volume is the sum of volume times weight
over the classes that carry a configured weight; a class with no weight
contributes nothing and is silently ignored, raising no error. -/
theorem C6_pcu_partial_sum (volumes weights : List (String × ℚ)) :
    ((∀ p ∈ volumes, (alookup p.1 weights).isSome) →
      sumPCU volumes weights
        = (volumes.map (fun p => p.2 * (alookup p.1 weights).getD 0)).sum) ∧
    (∀ c v, alookup c weights = none →
      sumPCU ((c, v) :: volumes) weights = sumPCU volumes weights) := by
  constructor
  · intro h
    induction volumes with
    | nil => simp [sumPCU_nil]
    | cons p ps ih =>
      have hp : (alookup p.1 weights).isSome := h p (List.mem_cons_self p ps)
      obtain ⟨w, hw⟩ := Option.isSome_iff_exists.mp hp
      have ihs := ih (fun q hq => h q (List.mem_cons_of_mem p hq))
      rw [sumPCU_cons_some hw, ihs]
      simp [hw]
  · intro c v hc
    exact sumPCU_cons_none hc

/-- C6 amended witness: with every class weighted, the PCU volume is the
full weighted sum. -/
theorem C6_pcu_partial_sum_witness :
    (∀ p ∈ [("PC", (2:ℚ))], (alookup p.1 pcOnlyWeights).isSome) ∧
    sumPCU [("PC", 2)] pcOnlyWeights
      = ([("PC", (2:ℚ))].map
          (fun p => p.2 * (alookup p.1 pcOnlyWeights).getD 0)).sum :=
  ⟨by simp [pcOnlyWeights, alookup],
    (C6_pcu_partial_sum [("PC", 2)] pcOnlyWeights).1
      (by simp [pcOnlyWeights, alookup])⟩

/-- C5: the VKT accumulators of notebooks 01 and 02 are seeded with
np.array(5, float) — the scalar 5.0 — not with zeros, so every reported
per-condition, per-vehicle-class total is the sum of the per-date values
plus 5; in particular a single all-zero date reports 5, not 0. -/
theorem C5_vkt_seed_not_zero :
    (∀ (ds : List (LOS → Fin 5 → ℚ)) (k : LOS) (i : Fin 5),
      vktAccumulate ds k i = 5 + (ds.map (fun cl => cl k i)).sum) ∧
    vktAccumulate [fun _ _ => 0] LOS.Freeflow 0 = 5 := by
  have key : ∀ (ds : List (LOS → Fin 5 → ℚ)) (acc : LOS → Fin 5 → ℚ)
      (k : LOS) (i : Fin 5),
      (ds.foldl (fun a cl => fun k i => a k i + cl k i) acc) k i
        = acc k i + (ds.map (fun cl => cl k i)).sum := by
    intro ds
    induction ds with
    | nil => intro acc k i; simp
    | cons d ds ih =>
      intro acc k i
      simp only [List.foldl_cons, List.map_cons, List.sum_cons]
      rw [ih]
      ring
  constructor
  · intro ds k i
    have := key ds (fun _ => npArraySeed) k i
    simpa [vktAccumulate, npArraySeed] using this
  · have := key [fun _ _ => 0] (fun _ => npArraySeed) LOS.Freeflow 0
    simp only [vktAccumulate]
    rw [this]
    simp [npArraySeed]

/-- C10: the dispatcher dequeues one result before testing queue emptiness,
so the drain is only defined for a non-empty set of per-date results: an
empty queue blocks the first dequeue forever and no empty aggregate is
ever produced. -/
theorem C10_drain_needs_first_result (rs : List DailyResult) :
    drainResults [] = .blocked ∧
    (∀ agg, drainResults rs = .ok agg → rs ≠ []) := by
  refine ⟨rfl, ?_⟩
  intro agg h hnil
  subst hnil
  simp [drainResults] at h

/-- C10 witness: a one-element queue drains to its sole result, and that
queue is not empty. -/
theorem C10_drain_needs_first_result_witness :
    drainResults [[(0, [("CO2", (1:ℚ))])]] = .ok [(0, [("CO2", 1)])] ∧
    ([[(0, [("CO2", (1:ℚ))])]] : List DailyResult) ≠ [] :=
  ⟨rfl,
    (C10_drain_needs_first_result [[(0, [("CO2", (1:ℚ))])]]).2
      [(0, [("CO2", 1)])] rfl⟩

lemma runHours_spec (f : Nat → Nat → Except String ℚ) (date : String)
    (link : Nat) (hs : List Nat) :
    runHours f date link hs
      = ((hs.map (fun h => successValue (f link h))).sum,
         hs.filterMap (fun h => errorRecord f date link h)) := by
  induction hs with
  | nil => simp [runHours]
  | cons h hs ih =>
    cases hf : f link h with
    | ok x =>
      simp [runHours, ih, hf, successValue, errorRecord]
    | error e =>
      simp [runHours, ih, hf, successValue, errorRecord]

lemma drainErrors_id {α : Type} (q : List α) : drainErrors q = q := by
  have key : ∀ (l acc : List α),
      l.foldl (fun a e => a ++ [e]) acc = acc ++ l := by
    intro l
    induction l with
    | nil => intro acc; simp
    | cons x xs ih => intro acc; simp [List.foldl_cons, ih]
  simpa using key q []

/-- C4: every per-record failure of one date is caught, wrapped with its
(date, road link, hour) context and collected — in record order — while
processing continues over all remaining records; the per-link aggregate of
the successful records is returned together with the full error list (the
aggregate is produced no matter how many errors there are), and the
error-queue drain hands back every collected error unchanged. -/
theorem C4_partial_failure_isolation (f : Nat → Nat → Except String ℚ)
    (date : String) (links : List Nat) :
    (process_daily_emissions f date links).1
      = links.map (fun l =>
          (l, ((List.range 24).map (fun h => successValue (f l h))).sum)) ∧
    (process_daily_emissions f date links).2
      = links.flatMap (fun l =>
          (List.range 24).filterMap (fun h => errorRecord f date l h)) ∧
    (∀ q : List TaskError, drainErrors q = q) := by
  refine ⟨?_, ?_, fun q => drainErrors_id q⟩ <;>
  · induction links with
    | nil => simp [process_daily_emissions]
    | cons l ls ih =>
      simp [process_daily_emissions, runHours_spec, ih]

lemma addEmList_isSome_iff (new : DailyResult) (ri : Nat)
    (ems : List (String × ℚ)) :
    (addEmList new ri ems).isSome ↔
      ∀ p ∈ ems, (lookup2 new ri p.1).isSome := by
  induction ems with
  | nil => simp [addEmList]
  | cons p rest ih =>
    obtain ⟨c, v⟩ := p
    cases hl : lookup2 new ri c with
    | none =>
      simp only [addEmList]
      rw [hl]
      simp [List.forall_mem_cons, hl]
    | some w =>
      simp only [addEmList]
      rw [hl]
      simp [List.forall_mem_cons, hl, ih]

lemma addEmList_eq_some (new : DailyResult) (ri : Nat) :
    ∀ (ems out : List (String × ℚ)), addEmList new ri ems = some out →
      out = ems.map (fun q => (q.1, q.2 + (lookup2 new ri q.1).getD 0)) := by
  intro ems
  induction ems with
  | nil =>
    intro out h
    simp [addEmList] at h
    subst h
    rfl
  | cons p rest ih =>
    obtain ⟨c, v⟩ := p
    intro out h
    cases hl : lookup2 new ri c with
    | none =>
      rw [addEmList, hl] at h
      exact absurd h (by simp)
    | some w =>
      rw [addEmList, hl] at h
      obtain ⟨t, ht, hout⟩ := Option.map_eq_some'.mp h
      subst hout
      simp [ih t ht, hl]

lemma keyPairs_nil : keyPairs [] = [] := rfl

lemma keyPairs_cons (p : Nat × List (String × ℚ)) (rest : DailyResult) :
    keyPairs (p :: rest)
      = p.2.map (fun q => (p.1, q.1)) ++ keyPairs rest := by
  simp [keyPairs]

lemma addResult_isSome_iff (acc new : DailyResult) :
    (addResult acc new).isSome ↔
      ∀ p ∈ keyPairs acc, (lookup2 new p.1 p.2).isSome := by
  induction acc with
  | nil => simp [addResult, keyPairs_nil]
  | cons e rest ih =>
    obtain ⟨ri, ems⟩ := e
    cases he : addEmList new ri ems with
    | none =>
      rw [addResult, he]
      have hne : ¬ ∀ p ∈ ems, (lookup2 new ri p.1).isSome := by
        intro hall
        have := (addEmList_isSome_iff new ri ems).mpr hall
        rw [he] at this
        simp at this
      simp only [keyPairs_cons]
      constructor
      · intro h; simp at h
      · intro hall
        exfalso
        apply hne
        intro p hp
        exact hall (ri, p.1) (by
          apply List.mem_append_left
          exact List.mem_map.mpr ⟨p, hp, rfl⟩)
    | some ems2 =>
      rw [addResult, he]
      have hok : ∀ p ∈ ems, (lookup2 new ri p.1).isSome := by
        have hs : (addEmList new ri ems).isSome := by rw [he]; rfl
        exact (addEmList_isSome_iff new ri ems).mp hs
      have hmap : ∀ (x : Option DailyResult),
          (x.map (fun t => (ri, ems2) :: t)).isSome = x.isSome := by
        intro x; cases x <;> rfl
      rw [hmap, ih, keyPairs_cons]
      constructor
      · intro h p hp
        rcases List.mem_append.mp hp with hm | hm
        · obtain ⟨q, hq, rfl⟩ := List.mem_map.mp hm
          exact hok q hq
        · exact h p hm
      · intro h p hp
        exact h p (List.mem_append_right _ hp)

lemma addResult_eq_some (new : DailyResult) :
    ∀ (acc out : DailyResult), addResult acc new = some out →
      out = pureAdd acc new := by
  intro acc
  induction acc with
  | nil =>
    intro out h
    simp [addResult] at h
    subst h
    rfl
  | cons e rest ih =>
    obtain ⟨ri, ems⟩ := e
    intro out h
    cases he : addEmList new ri ems with
    | none =>
      rw [addResult, he] at h
      exact absurd h (by simp)
    | some ems2 =>
      rw [addResult, he] at h
      obtain ⟨t, ht, hout⟩ := Option.map_eq_some'.mp h
      subst hout
      have h2 := addEmList_eq_some new ri ems ems2 he
      simp [pureAdd] at ih ⊢
      exact ⟨h2, ih t ht⟩

lemma keyPairs_pureAdd (acc new : DailyResult) :
    keyPairs (pureAdd acc new) = keyPairs acc := by
  induction acc with
  | nil => rfl
  | cons e rest ih =>
    obtain ⟨ri, ems⟩ := e
    simp only [pureAdd, List.map_cons] at ih ⊢
    rw [keyPairs_cons, keyPairs_cons]
    simp only [List.map_map]
    rw [ih]
    rfl

lemma lookup2_pureAdd (acc new : DailyResult) (ri : Nat) (c : String) :
    lookup2 (pureAdd acc new) ri c
      = (lookup2 acc ri c).map (fun v => v + (lookup2 new ri c).getD 0) := by
  have h1 : alookup ri (pureAdd acc new)
      = (alookup ri acc).map (fun ems =>
          ems.map (fun q => (q.1, q.2 + (lookup2 new ri q.1).getD 0))) := by
    have h2 := alookup_map_val (fun a ems =>
      ems.map (fun q => (q.1, q.2 + (lookup2 new a q.1).getD 0))) ri acc
    exact h2
  show (alookup ri (pureAdd acc new)).bind (fun ems => alookup c ems)
      = ((alookup ri acc).bind (fun ems => alookup c ems)).map
          (fun v => v + (lookup2 new ri c).getD 0)
  rw [h1]
  cases h : alookup ri acc with
  | none => rfl
  | some ems =>
    exact alookup_map_val (fun a v => v + (lookup2 new ri a).getD 0) c ems

lemma drainLoop_keyPairs :
    ∀ (rest : List DailyResult) (acc agg : DailyResult),
      drainLoop acc rest = some agg → keyPairs agg = keyPairs acc := by
  intro rest
  induction rest with
  | nil =>
    intro acc agg h
    simp [drainLoop] at h
    rw [h]
  | cons new rest ih =>
    intro acc agg h
    cases ha : addResult acc new with
    | none => rw [drainLoop, ha] at h; exact absurd h (by simp)
    | some acc2 =>
      rw [drainLoop, ha] at h
      rw [ih acc2 agg h, addResult_eq_some new acc acc2 ha,
        keyPairs_pureAdd]

lemma drainLoop_isSome_iff :
    ∀ (rest : List DailyResult) (acc : DailyResult),
      (drainLoop acc rest).isSome ↔
        ∀ r ∈ rest, ∀ p ∈ keyPairs acc, (lookup2 r p.1 p.2).isSome := by
  intro rest
  induction rest with
  | nil => intro acc; simp [drainLoop]
  | cons new rest ih =>
    intro acc
    cases ha : addResult acc new with
    | none =>
      rw [drainLoop, ha]
      simp only [Option.isSome_none, Bool.false_eq_true, false_iff]
      intro hall
      have h1 : (addResult acc new).isSome :=
        (addResult_isSome_iff acc new).mpr
          (hall new (List.mem_cons_self new rest))
      rw [ha] at h1
      simp at h1
    | some acc2 =>
      rw [drainLoop, ha]
      have hnew : ∀ p ∈ keyPairs acc, (lookup2 new p.1 p.2).isSome := by
        have h1 : (addResult acc new).isSome := by rw [ha]; rfl
        exact (addResult_isSome_iff acc new).mp h1
      have hkp : keyPairs acc2 = keyPairs acc := by
        rw [addResult_eq_some new acc acc2 ha, keyPairs_pureAdd]
      rw [ih acc2, hkp]
      constructor
      · intro h r hr
        rcases List.mem_cons.mp hr with hm | hm
        · exact hm ▸ hnew
        · exact h r hm
      · intro h r hr
        exact h r (List.mem_cons_of_mem new hr)

lemma drainLoop_lookup :
    ∀ (rest : List DailyResult) (acc agg : DailyResult),
      drainLoop acc rest = some agg → ∀ (ri : Nat) (c : String),
        lookup2 agg ri c = (lookup2 acc ri c).map (fun v =>
          v + ((rest.map (fun r => (lookup2 r ri c).getD 0)).sum)) := by
  intro rest
  induction rest with
  | nil =>
    intro acc agg h ri c
    rw [drainLoop] at h
    injection h with h2
    rw [← h2]
    cases lookup2 acc ri c <;> simp
  | cons new rest ih =>
    intro acc agg h ri c
    cases ha : addResult acc new with
    | none => rw [drainLoop, ha] at h; exact absurd h (by simp)
    | some acc2 =>
      rw [drainLoop, ha] at h
      have hstep := ih acc2 agg h ri c
      rw [addResult_eq_some new acc acc2 ha] at hstep
      rw [hstep, lookup2_pureAdd]
      cases lookup2 acc ri c with
      | none => rfl
      | some v =>
        show some (v + (lookup2 new ri c).getD 0
            + (rest.map (fun r => (lookup2 r ri c).getD 0)).sum)
          = some (v + ((new :: rest).map
              (fun r => (lookup2 r ri c).getD 0)).sum)
        rw [List.map_cons, List.sum_cons]
        congr 1
        ring

/-- C9: the drain loop iterates only over the keys of the first-drained
result and indexes every later result with those keys — it completes
without a KeyError exactly when every later result carries every
(road index, component) key of the first, and the final aggregate's key
set is that of the first result, so a key appearing only in a later
result is silently omitted. -/
theorem C9_drain_keyed_by_first (first : DailyResult)
    (rest : List DailyResult) :
    ((∃ agg, drainResults (first :: rest) = .ok agg) ↔
      ∀ r ∈ rest, ∀ p ∈ keyPairs first, (lookup2 r p.1 p.2).isSome) ∧
    (∀ agg, drainResults (first :: rest) = .ok agg →
      keyPairs agg = keyPairs first) := by
  constructor
  · rw [← drainLoop_isSome_iff rest first]
    constructor
    · rintro ⟨agg, hagg⟩
      rw [drainResults] at hagg
      cases hd : drainLoop first rest with
      | none => rw [hd] at hagg; exact absurd hagg (by simp)
      | some a => rfl
    · intro hs
      obtain ⟨a, ha⟩ := Option.isSome_iff_exists.mp hs
      refine ⟨a, ?_⟩
      rw [drainResults, ha]
  · intro agg hagg
    rw [drainResults] at hagg
    cases hd : drainLoop first rest with
    | none => rw [hd] at hagg; exact absurd hagg (by simp)
    | some a =>
      rw [hd] at hagg
      have haa : a = agg := by
        injection hagg with h2
      rw [← haa]
      exact drainLoop_keyPairs rest first a hd

/-- Per-date results used to exercise the drain loop on concrete data. -/
def resultA : DailyResult := [(0, [("CO2", 1)])]

/-- A second concrete per-date result carrying an extra road link absent
from resultA. -/
def resultB : DailyResult := [(0, [("CO2", 2)]), (1, [("CO2", 7)])]

/-- C9 witness: with a first result whose keys all appear in the later
result, the drain completes with an aggregate. -/
theorem C9_drain_keyed_by_first_witness :
    (∀ r ∈ [resultB], ∀ p ∈ keyPairs resultA, (lookup2 r p.1 p.2).isSome) ∧
    (∃ agg, drainResults (resultA :: [resultB]) = .ok agg) :=
  ⟨by
    intro r hr p hp
    simp [resultB, resultA, keyPairs] at hr hp
    subst hr
    subst hp
    rfl,
   (C9_drain_keyed_by_first resultA [resultB]).1.mpr (by
    intro r hr p hp
    simp [resultB, resultA, keyPairs] at hr hp
    subst hr
    subst hp
    rfl)⟩

/-- C3 counterexample: two per-date results with different key sets; in one
arrival order the drain produces an aggregate (silently dropping road 1),
in the swapped order it raises a KeyError — so plain permutation of
arrival order does not preserve the drain's outcome. -/
theorem C3_order_dependence_counterexample :
    [resultA, resultB].Perm [resultB, resultA] ∧
    drainResults [resultA, resultB] = .ok [(0, [("CO2", 1 + 2)])] ∧
    drainResults [resultB, resultA] = .keyError ∧
    drainResults [resultA, resultB] ≠ drainResults [resultB, resultA] := by
  refine ⟨List.Perm.swap resultB resultA [], rfl, rfl, ?_⟩
  intro h
  rw [show drainResults [resultA, resultB]
      = .ok [(0, [("CO2", 1 + 2)])] from rfl] at h
  rw [show drainResults [resultB, resultA] = .keyError from rfl] at h
  exact DrainOutcome.noConfusion h

lemma lookup2_isSome_of_mem_keyPairs {r : DailyResult}
    (hnd : (r.map Prod.fst).Nodup) {p : Nat × String}
    (hp : p ∈ keyPairs r) : (lookup2 r p.1 p.2).isSome := by
  rw [keyPairs] at hp
  obtain ⟨e, he, hq⟩ := List.mem_flatMap.mp hp
  obtain ⟨q, hqm, rfl⟩ := List.mem_map.mp hq
  have h1 : alookup e.1 r = some e.2 :=
    alookup_of_mem_nodup hnd (by
      have : (e.1, e.2) = e := rfl
      rw [this]
      exact he)
  rw [lookup2, h1]
  simp only [Option.some_bind]
  rw [alookup_isSome_iff]
  exact List.mem_map.mpr ⟨q, hqm, rfl⟩

/-- C3 amended: when the drained per-date results all expose the same
(road link, component) key domains (with well-formed, duplicate-free
dicts), draining them in any two arrival orders related by a permutation
completes in both and yields entry-wise identical aggregates. -/
theorem C3_reduction_perm_invariant (rs rs2 : List DailyResult)
    (hperm : rs.Perm rs2) (hne : rs ≠ [])
    (hwf : ∀ r ∈ rs, (r.map Prod.fst).Nodup)
    (hdom : ∀ r ∈ rs, ∀ r2 ∈ rs, ∀ (ri : Nat) (c : String),
      (lookup2 r ri c).isSome = (lookup2 r2 ri c).isSome) :
    ∃ agg agg2, drainResults rs = .ok agg ∧ drainResults rs2 = .ok agg2 ∧
      ∀ (ri : Nat) (c : String), lookup2 agg ri c = lookup2 agg2 ri c := by
  match rs, hne with
  | f :: rest, _ =>
  match rs2, (show rs2 ≠ [] from fun h => by
      rw [h] at hperm
      exact List.cons_ne_nil f rest hperm.eq_nil) with
  | f2 :: rest2, _ =>
  have hmem2 : ∀ r ∈ f2 :: rest2, r ∈ f :: rest := fun r hr =>
    hperm.mem_iff.mpr hr
  have hsucc : ∀ (g : DailyResult) (grest : List DailyResult),
      g ∈ f :: rest → (∀ r ∈ grest, r ∈ f :: rest) →
      (drainLoop g grest).isSome := by
    intro g grest hg hgrest
    apply (drainLoop_isSome_iff grest g).mpr
    intro r hr p hp
    have h1 : (lookup2 g p.1 p.2).isSome :=
      lookup2_isSome_of_mem_keyPairs (hwf g hg) hp
    have h2 := hdom g hg r (hgrest r hr) p.1 p.2
    rw [← h2]
    exact h1
  obtain ⟨agg, hagg⟩ := Option.isSome_iff_exists.mp
    (hsucc f rest (List.mem_cons_self f rest)
      (fun r hr => List.mem_cons_of_mem f hr))
  obtain ⟨agg2, hagg2⟩ := Option.isSome_iff_exists.mp
    (hsucc f2 rest2 (hmem2 f2 (List.mem_cons_self f2 rest2))
      (fun r hr => hmem2 r (List.mem_cons_of_mem f2 hr)))
  refine ⟨agg, agg2, ?_, ?_, ?_⟩
  · rw [drainResults, hagg]
  · rw [drainResults, hagg2]
  · intro ri c
    have e1 := drainLoop_lookup rest f agg hagg ri c
    have e2 := drainLoop_lookup rest2 f2 agg2 hagg2 ri c
    have hsum : ((f :: rest).map (fun r => (lookup2 r ri c).getD 0)).sum
        = ((f2 :: rest2).map (fun r => (lookup2 r ri c).getD 0)).sum :=
      (hperm.map (fun r => (lookup2 r ri c).getD 0)).sum_eq
    have hd12 := hdom f (List.mem_cons_self f rest) f2
      (hmem2 f2 (List.mem_cons_self f2 rest2)) ri c
    cases hf : lookup2 f ri c with
    | none =>
      have hf2 : lookup2 f2 ri c = none := by
        rw [hf] at hd12
        simp only [Option.isSome_none] at hd12
        exact Option.not_isSome_iff_eq_none.mp (by
          rw [← hd12]
          simp)
      rw [e1, e2, hf, hf2]
      rfl
    | some v =>
      have hf2 : ∃ v2, lookup2 f2 ri c = some v2 := by
        rw [hf] at hd12
        simp only [Option.isSome_some] at hd12
        exact Option.isSome_iff_exists.mp (by rw [← hd12])
      obtain ⟨v2, hv2⟩ := hf2
      rw [e1, e2, hf, hv2]
      rw [List.map_cons, List.sum_cons, List.map_cons, List.sum_cons,
        hf, hv2] at hsum
      show some (v + (rest.map (fun r => (lookup2 r ri c).getD 0)).sum)
        = some (v2 + (rest2.map (fun r => (lookup2 r ri c).getD 0)).sum)
      congr 1

/-- A per-date result with the same key set as resultA but a different
value, for exercising permutation invariance. -/
def resultC : DailyResult := [(0, [("CO2", 2)])]

/-- C3 amended witness: two single-road results with identical keys drain
to entry-wise equal aggregates in either arrival order. -/
theorem C3_reduction_perm_invariant_witness :
    ∃ agg agg2, drainResults [resultA, resultC] = .ok agg ∧
      drainResults [resultC, resultA] = .ok agg2 ∧
      ∀ (ri : Nat) (c : String), lookup2 agg ri c = lookup2 agg2 ri c :=
  C3_reduction_perm_invariant [resultA, resultC] [resultC, resultA]
    (List.Perm.swap resultC resultA [])
    (by simp)
    (by
      intro r hr
      simp [resultA, resultC] at hr
      rcases hr with rfl | rfl <;> simp)
    (by
      intro r hr r2 hr2 ri c
      simp [resultA, resultC] at hr hr2
      rcases hr with rfl | rfl <;> rcases hr2 with rfl | rfl <;>
        by_cases h0 : (0 : Nat) = ri <;>
          by_cases hc : "CO2" = c <;>
            simp [lookup2, alookup, h0, hc])

lemma calcLinkHour_formula (efTable : List (EFKey × ℚ))
    (thresholds : List (String × (ℚ × ℚ × ℚ × ℚ)))
    (weights daily fracs : List (String × ℚ)) (year : Nat)
    (road_type hbefa_speed gradient component vc : String)
    (hour_capacity lengthM dv fr ef : ℚ) (t : ℚ × ℚ × ℚ × ℚ)
    (hd : alookup vc daily = some dv)
    (hf : alookup vc fracs = some fr)
    (ht : alookup road_type thresholds = some t)
    (hef : efLookup efTable year
        (losName (classifyVCR t
          (sumPCU (hourlyVolumes daily fracs) weights / hour_capacity)))
        vc gradient component = some ef) :
    calcLinkHour efTable thresholds weights year road_type hbefa_speed
        gradient component hour_capacity lengthM daily fracs vc
      = some (dv * fr * ef * (lengthM / 1000)) := by
  have hlos : calc_los_class thresholds road_type hbefa_speed hour_capacity
      (sumPCU (hourlyVolumes daily fracs) weights)
      = some (classifyVCR t
          (sumPCU (hourlyVolumes daily fracs) weights / hour_capacity)) := by
    rw [calc_los_class, ht]
    rfl
  have hvols : alookup vc (hourlyVolumes daily fracs)
      = some (modeled_volume dv fr) := by
    have h1 := alookup_map_val
      (fun a d => modeled_volume d ((alookup a fracs).getD 0)) vc daily
    have h2 : alookup vc (hourlyVolumes daily fracs)
        = (alookup vc daily).map
            (fun d => modeled_volume d ((alookup vc fracs).getD 0)) := h1
    rw [h2, hd, hf]
    rfl
  show (calc_los_class thresholds road_type hbefa_speed hour_capacity
      (sumPCU (hourlyVolumes daily fracs) weights)).bind
    (fun los =>
      (efLookup efTable year (losName los) vc gradient component).bind
        (fun ef2 =>
          (alookup vc (hourlyVolumes daily fracs)).map
            (fun hv => hv * ef2 * (lengthM / 1000))))
    = some (dv * fr * ef * (lengthM / 1000))
  rw [hlos, Option.some_bind, hef, Option.some_bind, hvols]
  rfl

/-- Scenario emission-factor table: 0.12 g per vehicle-kilometer for
(2019, Freeflow, PC, flat gradient, CO2). -/
def scenTable : List (EFKey × ℚ) :=
  [(⟨2019, "Freeflow", "PC", "0%", "CO2"⟩, 12/100)]

/-- Scenario thresholds (0.3, 0.5, 0.7, 0.9) for the Distributor/Secondary
road type. -/
def scenThresholds : List (String × (ℚ × ℚ × ℚ × ℚ)) :=
  [("Distributor/Secondary", (3/10, 1/2, 7/10, 9/10))]

/-- Scenario PCU weights: PC counts as 1 passenger-car unit. -/
def scenWeights : List (String × ℚ) := [("PC", 1)]

/-- Scenario daily volumes: 2000 passenger cars per day. -/
def scenDaily : List (String × ℚ) := [("PC", 2000)]

/-- Scenario temporal profile: 10 percent of the daily volume falls into
the hour under consideration. -/
def scenFracs : List (String × ℚ) := [("PC", 1/10)]

lemma scen_hourly : hourlyVolumes scenDaily scenFracs = [("PC", 200)] := by
  norm_num [hourlyVolumes, scenDaily, scenFracs, alookup, modeled_volume]

lemma scen_pcu :
    sumPCU (hourlyVolumes scenDaily scenFracs) scenWeights = 200 := by
  rw [scen_hourly,
    sumPCU_cons_some (show alookup "PC" scenWeights = some 1 by
      simp [scenWeights, alookup]),
    sumPCU_nil]
  norm_num

lemma scen_thr : alookup "Distributor/Secondary" scenThresholds
    = some (3/10, 1/2, 7/10, 9/10) := by
  simp [scenThresholds, alookup]

lemma scen_classify :
    classifyVCR (3/10, 1/2, 7/10, 9/10) (200 / 1000) = .Freeflow := by
  norm_num [classifyVCR]

lemma scen_los : calc_los_class scenThresholds "Distributor/Secondary" "80"
    1000 (sumPCU (hourlyVolumes scenDaily scenFracs) scenWeights)
    = some .Freeflow := by
  rw [calc_los_class, scen_thr]
  show some (classifyVCR (3/10, 1/2, 7/10, 9/10)
    (sumPCU (hourlyVolumes scenDaily scenFracs) scenWeights / 1000))
    = some LOS.Freeflow
  rw [scen_pcu, scen_classify]

lemma scen_ef : efLookup scenTable 2019
    (losName (classifyVCR (3/10, 1/2, 7/10, 9/10)
      (sumPCU (hourlyVolumes scenDaily scenFracs) scenWeights / 1000)))
    "PC" "0%" "CO2" = some (12/100) := by
  rw [scen_pcu, scen_classify]
  simp [efLookup, scenTable, alookup, losName]

/-- C7: per hour, the tracked class's volume is its daily volume times the
temporal-profile fraction, and the emission is that hourly volume times
the looked-up factor times the road length in kilometers; on the spec's
scenario (2000 PC/day, 10 percent in the hour, capacity 1000, thresholds
(0.3, 0.5, 0.7, 0.9), PCU weight 1, factor 0.12 g/veh-km, 0.5 km) the
hourly volume is 200, the condition Freeflow, and the emission 12 g. -/
theorem C7_hourly_activity_and_emission (efTable : List (EFKey × ℚ))
    (thresholds : List (String × (ℚ × ℚ × ℚ × ℚ)))
    (weights daily fracs : List (String × ℚ)) (year : Nat)
    (road_type hbefa_speed gradient component vc : String)
    (hour_capacity lengthM dv fr ef : ℚ) (t : ℚ × ℚ × ℚ × ℚ)
    (hd : alookup vc daily = some dv)
    (hf : alookup vc fracs = some fr)
    (ht : alookup road_type thresholds = some t)
    (hef : efLookup efTable year
        (losName (classifyVCR t
          (sumPCU (hourlyVolumes daily fracs) weights / hour_capacity)))
        vc gradient component = some ef) :
    calcLinkHour efTable thresholds weights year road_type hbefa_speed
        gradient component hour_capacity lengthM daily fracs vc
      = some (dv * fr * ef * (lengthM / 1000)) ∧
    modeled_volume 2000 (1/10) = 200 ∧
    calc_los_class scenThresholds "Distributor/Secondary" "80" 1000
      (sumPCU (hourlyVolumes scenDaily scenFracs) scenWeights)
      = some .Freeflow ∧
    calcLinkHour scenTable scenThresholds scenWeights 2019
      "Distributor/Secondary" "80" "0%" "CO2" 1000 500 scenDaily scenFracs
      "PC" = some 12 := by
  refine ⟨calcLinkHour_formula efTable thresholds weights daily fracs year
    road_type hbefa_speed gradient component vc hour_capacity lengthM
    dv fr ef t hd hf ht hef, by norm_num [modeled_volume], scen_los, ?_⟩
  have h := calcLinkHour_formula scenTable scenThresholds scenWeights
    scenDaily scenFracs 2019 "Distributor/Secondary" "80" "0%" "CO2" "PC"
    1000 500 2000 (1/10) (12/100) (3/10, 1/2, 7/10, 9/10)
    (by simp [scenDaily, alookup]) (by simp [scenFracs, alookup])
    scen_thr scen_ef
  rw [h]
  norm_num

/-- C7 witness: the scenario facts obtained by instantiating the theorem
at the scenario inputs. -/
theorem C7_hourly_activity_and_emission_witness :
    modeled_volume 2000 (1/10) = 200 ∧
    calc_los_class scenThresholds "Distributor/Secondary" "80" 1000
      (sumPCU (hourlyVolumes scenDaily scenFracs) scenWeights)
      = some .Freeflow ∧
    calcLinkHour scenTable scenThresholds scenWeights 2019
      "Distributor/Secondary" "80" "0%" "CO2" 1000 500 scenDaily scenFracs
      "PC" = some 12 :=
  (C7_hourly_activity_and_emission scenTable scenThresholds scenWeights
    scenDaily scenFracs 2019 "Distributor/Secondary" "80" "0%" "CO2" "PC"
    1000 500 2000 (1/10) (12/100) (3/10, 1/2, 7/10, 9/10)
    (by simp [scenDaily, alookup]) (by simp [scenFracs, alookup])
    scen_thr scen_ef).2
